import Mathlib

/-!
Shallow embedding of the table/image extraction core of `src/app.py`
(Network Sector Analysis Dashboard): `find_table_start`, `find_table_end`,
`extract_images_from_sheet`, the cleanup pipeline of
`display_table_from_sheet`, and `load_data`, together with theorems that
settle the specification's claims about them.
-/

/-- Cell of a spreadsheet grid: a number, a text, or empty (pandas NaN). -/
inductive Cell where
  | num (n : Int)
  | str (s : String)
  | empty
deriving DecidableEq

/-- True exactly on the null cell, mirroring pandas `isnull`. -/
def Cell.isNull : Cell → Bool
  | .empty => true
  | _ => false

/-- Stringification used by pandas `Series.to_string`: numbers print in
decimal, nulls print as "NaN". -/
def Cell.toText : Cell → String
  | .num n => toString n
  | .str s => s
  | .empty => "NaN"

/-- Stringification used by `Index.astype(str)` on header values: numbers
print in decimal, nulls print as "nan". -/
def Cell.astypeStr : Cell → String
  | .num n => toString n
  | .str s => s
  | .empty => "nan"

/-- Substring containment, modelling the Python `in` operator on strings. -/
def strContains (s pat : String) : Bool :=
  s.data.tails.any (fun t => pat.data.isPrefixOf t)

/-- Concatenated text of one row, modelling `row.to_string()`: the row's cell
values stringified and whitespace-joined. -/
def row_to_string (r : List Cell) : String :=
  String.intercalate " " (r.map Cell.toText)

/-- Embeds `find_table_start`: the index of the first row whose concatenated
text contains the given header text, or `none` when no row matches. -/
def find_table_start (df : List (List Cell)) (header_text : String) : Option Nat :=
  df.findIdx? (fun row => strContains (row_to_string row) header_text)

/-- Row predicate of `df.iloc[i].isnull().all()`. -/
def row_all_null (r : List Cell) : Bool := r.all Cell.isNull

/-- Embeds `find_table_end`: the first index at or after `start_search_from`
whose row is entirely null, or the number of rows when there is none. -/
def find_table_end (df : List (List Cell)) (start_search_from : Nat) : Nat :=
  (((List.range' start_search_from (df.length - start_search_from)).find?
      (fun i => row_all_null (df.getD i []))).getD df.length)

/-- An embedded image together with its anchor cell (`anchor._from`). -/
structure Img where
  row : Nat
  col : Nat
  ref : String
deriving DecidableEq

/-- The images dictionary built by `extract_images_from_sheet`: at most the
two slots plot1 and plot2. -/
structure ImageSlots where
  plot1 : Option String := none
  plot2 : Option String := none
deriving DecidableEq

/-- One iteration of the classification loop in `extract_images_from_sheet`. -/
def classifyImage (images : ImageSlots) (image : Img) : ImageSlots :=
  if images.plot1 = none ∧ image.row ≥ 19 ∧ image.col = 0 then
    { images with plot1 := some image.ref }
  else if images.plot2 = none ∧ image.row ≥ 19 ∧ image.col = 11 then
    { images with plot2 := some image.ref }
  else images

/-- The classification loop run over an image list read without failure. -/
def classifyAll (l : List Img) : ImageSlots := l.foldl classifyImage {}

/-- The body of the `for` loop in `extract_images_from_sheet`, where reading
each image may raise: on the first raising element the loop is abandoned with
the slots assigned so far, and the handler reports an error (the Bool records
whether `st.error` was called). -/
def extractLoop (images : ImageSlots) : List (Except String Img) → ImageSlots × Bool
  | [] => (images, false)
  | .error _ :: _ => (images, true)
  | .ok image :: rest => extractLoop (classifyImage images image) rest

/-- Embeds `extract_images_from_sheet`. The input is the attempt to read the
sheet's image list: `error` models the workbook load or the sheet lookup
raising before the loop, and each list element is the attempt to read one
image. Returns the slot mapping together with whether the exception handler
reported an error. -/
def extract_images_from_sheet (input : Except String (List (Except String Img))) :
    ImageSlots × Bool :=
  match input with
  | .error _ => ({}, true)
  | .ok l => extractLoop {} l

/-- The duplicate-column loop of `display_table_from_sheet`, with the Python
dict `seen` modelled as a function that is 0 on absent keys (the counts the
code stores are always at least 1). -/
def dedupAux (seen : String → Nat) : List String → List String
  | [] => []
  | col :: rest =>
    if seen col = 0 then
      col :: dedupAux (fun s => if s = col then 1 else seen s) rest
    else
      (col ++ "_" ++ toString (seen col)) ::
        dedupAux (fun s => if s = col then seen col + 1 else seen s) rest

/-- Column-name deduplication applied to the stringified header values. -/
def dedupColumns (names : List String) : List String := dedupAux (fun _ => 0) names

/-- Keep a row iff it is not entirely null: `dropna(how='all', axis=0)`. -/
def dropNullRows (m : List (List Cell)) : List (List Cell) :=
  m.filter (fun r => !(row_all_null r))

/-- Indices, in order, of the columns kept by `dropna(how='all', axis=1)` on a
table of width w: the columns that are not entirely null. -/
def keptCols (w : Nat) (m : List (List Cell)) : List Nat :=
  (List.range w).filter (fun j => !(m.all (fun r => (r.getD j Cell.empty).isNull)))

/-- Embeds `dropna(how='all', axis=0).dropna(how='all', axis=1)` on a table of
width w: all-null rows are dropped, then all-null columns of what remains. -/
def trimTable (w : Nat) (m : List (List Cell)) : List (List Cell) :=
  (dropNullRows m).map
    (fun r => (keptCols w (dropNullRows m)).map (fun j => r.getD j Cell.empty))

/-- Data slice `sheet_df.iloc[data_start_row:table_end_row]` taken by
`display_table_from_sheet` below title row t. -/
def tableExtent (df : List (List Cell)) (t : Nat) : List (List Cell) :=
  (df.drop (t + 2)).take (find_table_end df (t + 2) - (t + 2))

/-- Result of locating a table: the title is absent, or reading the header row
raised an uncaught IndexError (pandas `iloc` past the last row), or the
cleaned table. -/
inductive LocateResult where
  | notFound
  | outOfBounds
  | table (cols : List String) (rows : List (List Cell))
deriving DecidableEq

/-- Embeds the extraction pipeline of `display_table_from_sheet` up to the
frame passed to `st.dataframe`: find the title row, take the next row as
headers, slice the data extent, dedup the stringified header names, then drop
all-null rows and all-null columns. The displayed column names are the deduped
names of the kept columns. When the matched title row is the last row,
`sheet_df.iloc[start_row + 1]` raises, modelled as `outOfBounds`. -/
def locate (df : List (List Cell)) (title : String) : LocateResult :=
  match find_table_start df title with
  | none => .notFound
  | some start_row =>
    if start_row + 1 < df.length then
      let header_row := df.getD (start_row + 1) []
      let names := dedupColumns (header_row.map Cell.astypeStr)
      let body := tableExtent df start_row
      let kept := keptCols header_row.length (dropNullRows body)
      .table (kept.map (fun j => names.getD j "")) (trimTable header_row.length body)
    else .outOfBounds

/-- Load errors of `load_data`: the file is missing, or the sheet named
"Introduction" is. -/
inductive LoadError where
  | missingFile
  | missingIndexSheet
deriving DecidableEq

/-- A workbook: its sheets in order, each a name paired with its raw grid. -/
structure Workbook where
  sheets : List (String × List (List Cell))

/-- Embeds `load_data`, with `none` modelling a path that does not exist.
Requires the "Introduction" sheet (else a distinct error) and returns every
other sheet as a raw untyped grid keyed by sheet name, together with the
Introduction grid. -/
def load_data (file : Option Workbook) :
    Except LoadError (List (String × List (List Cell)) × List (List Cell)) :=
  match file with
  | none => .error .missingFile
  | some wb =>
    match wb.sheets.find? (fun p => p.1 == "Introduction") with
    | none => .error .missingIndexSheet
    | some intro =>
      .ok (wb.sheets.filter (fun p => p.1 != "Introduction"), intro.2)

/-! Helper lemmas about the image classification loop. -/

theorem classifyImage_plot1_eq (acc : ImageSlots) (i : Img) :
    (classifyImage acc i).plot1 =
      if acc.plot1 = none ∧ 19 ≤ i.row ∧ i.col = 0 then some i.ref else acc.plot1 := by
  unfold classifyImage
  split_ifs <;> rfl

theorem classifyImage_plot2_eq (acc : ImageSlots) (i : Img) :
    (classifyImage acc i).plot2 =
      if acc.plot2 = none ∧ 19 ≤ i.row ∧ i.col = 11 then some i.ref else acc.plot2 := by
  unfold classifyImage
  split_ifs with h1 h2 h3 <;> try rfl
  all_goals simp_all

theorem foldl_classify_plot1_some (l : List Img) :
    ∀ (acc : ImageSlots) (x : String), acc.plot1 = some x →
      (l.foldl classifyImage acc).plot1 = some x := by
  induction l with
  | nil => intro acc x h; simpa using h
  | cons i rest ih =>
    intro acc x h
    rw [List.foldl_cons]
    apply ih
    rw [classifyImage_plot1_eq, if_neg (by simp [h])]
    exact h

theorem foldl_classify_plot2_some (l : List Img) :
    ∀ (acc : ImageSlots) (x : String), acc.plot2 = some x →
      (l.foldl classifyImage acc).plot2 = some x := by
  induction l with
  | nil => intro acc x h; simpa using h
  | cons i rest ih =>
    intro acc x h
    rw [List.foldl_cons]
    apply ih
    rw [classifyImage_plot2_eq, if_neg (by simp [h])]
    exact h

theorem foldl_classify_plot1_none (l : List Img) :
    ∀ acc : ImageSlots, acc.plot1 = none →
      (l.foldl classifyImage acc).plot1 =
        (l.find? (fun i => decide (19 ≤ i.row ∧ i.col = 0))).map Img.ref := by
  induction l with
  | nil => intro acc h; simpa using h
  | cons i rest ih =>
    intro acc h
    rw [List.foldl_cons]
    by_cases hq : 19 ≤ i.row ∧ i.col = 0
    · have hset : (classifyImage acc i).plot1 = some i.ref := by
        rw [classifyImage_plot1_eq, if_pos ⟨h, hq⟩]
      rw [foldl_classify_plot1_some rest _ _ hset,
        List.find?_cons_of_pos _ (by simpa using hq)]
      rfl
    · have hkeep : (classifyImage acc i).plot1 = none := by
        rw [classifyImage_plot1_eq, if_neg (by tauto)]
        exact h
      rw [ih _ hkeep, List.find?_cons_of_neg _ (by simpa using hq)]

theorem foldl_classify_plot2_none (l : List Img) :
    ∀ acc : ImageSlots, acc.plot2 = none →
      (l.foldl classifyImage acc).plot2 =
        (l.find? (fun i => decide (19 ≤ i.row ∧ i.col = 11))).map Img.ref := by
  induction l with
  | nil => intro acc h; simpa using h
  | cons i rest ih =>
    intro acc h
    rw [List.foldl_cons]
    by_cases hq : 19 ≤ i.row ∧ i.col = 11
    · have hset : (classifyImage acc i).plot2 = some i.ref := by
        rw [classifyImage_plot2_eq, if_pos ⟨h, hq⟩]
      rw [foldl_classify_plot2_some rest _ _ hset,
        List.find?_cons_of_pos _ (by simpa using hq)]
      rfl
    · have hkeep : (classifyImage acc i).plot2 = none := by
        rw [classifyImage_plot2_eq, if_neg (by tauto)]
        exact h
      rw [ih _ hkeep, List.find?_cons_of_neg _ (by simpa using hq)]

/-- C2: classification assigns each slot at most once, to the first qualifying
image in listed order: plot1 gets the first image with anchor row at least 19
and column 0, plot2 the first with anchor row at least 19 and column 11; all
other images, and later qualifiers for an already-filled slot, are ignored. -/
theorem images_first_match (l : List Img) :
    (classifyAll l).plot1 =
      (l.find? (fun i => decide (19 ≤ i.row ∧ i.col = 0))).map Img.ref ∧
    (classifyAll l).plot2 =
      (l.find? (fun i => decide (19 ≤ i.row ∧ i.col = 11))).map Img.ref := by
  exact ⟨foldl_classify_plot1_none l {} rfl, foldl_classify_plot2_none l {} rfl⟩

/-- Concrete instance of the C2 classification rule, exercising the examples
named by the specification. -/
theorem images_first_match_witness :
    (classifyAll [⟨5, 0, "low"⟩, ⟨25, 0, "a"⟩, ⟨25, 11, "b"⟩, ⟨30, 0, "dup"⟩]).plot1 = some "a" ∧
    (classifyAll [⟨5, 0, "low"⟩, ⟨25, 0, "a"⟩, ⟨25, 11, "b"⟩, ⟨30, 0, "dup"⟩]).plot2 = some "b" := by
  have h := images_first_match [⟨5, 0, "low"⟩, ⟨25, 0, "a"⟩, ⟨25, 11, "b"⟩, ⟨30, 0, "dup"⟩]
  exact ⟨h.1.trans (by decide), h.2.trans (by decide)⟩

/-- C8: when the image list cannot be read at all, extraction returns the
empty mapping and reports a warning; the failure is caught, not propagated. -/
theorem extract_images_error_empty (e : String) :
    extract_images_from_sheet (.error e) = ({ plot1 := none, plot2 := none }, true) := rfl

/-- Concrete instance of C8 at a specific error message. -/
theorem extract_images_error_empty_witness :
    extract_images_from_sheet (.error "corrupt workbook") =
      ({ plot1 := none, plot2 := none }, true) :=
  extract_images_error_empty "corrupt workbook"

theorem extractLoop_ok_all (l : List Img) :
    ∀ acc : ImageSlots, extractLoop acc (l.map Except.ok) = (l.foldl classifyImage acc, false) := by
  induction l with
  | nil => intro acc; rfl
  | cons i rest ih =>
    intro acc
    simp only [List.map_cons, extractLoop, List.foldl_cons]
    exact ih _

theorem extractLoop_err (pre : List Img) :
    ∀ (acc : ImageSlots) (e : String) (post : List (Except String Img)),
      extractLoop acc (pre.map Except.ok ++ .error e :: post) = (pre.foldl classifyImage acc, true) := by
  induction pre with
  | nil => intro acc e post; rfl
  | cons i rest ih =>
    intro acc e post
    simp only [List.map_cons, List.cons_append, extractLoop, List.foldl_cons]
    exact ih _ _ _

/-- C10: image extraction is a total function (every exception is caught), and
when a failure strikes mid-iteration the returned mapping holds exactly the
slots assigned from the images read before the failure; a failure-free list is
classified in full with no warning. -/
theorem extract_images_keep_assigned_on_failure (pre : List Img) (e : String)
    (post : List (Except String Img)) :
    extract_images_from_sheet (.ok (pre.map Except.ok ++ .error e :: post)) =
      (classifyAll pre, true) ∧
    ∀ l : List Img,
      extract_images_from_sheet (.ok (l.map Except.ok)) = (classifyAll l, false) := by
  constructor
  · exact extractLoop_err pre {} e post
  · intro l
    exact extractLoop_ok_all l {}

/-- Concrete instance of C10: a failure after one plot1 image was read yields
the partially-filled mapping (plot1 only) with a warning. -/
theorem extract_images_keep_assigned_on_failure_witness :
    extract_images_from_sheet
        (.ok [Except.ok ⟨25, 0, "a"⟩, Except.error "bad anchor", Except.ok ⟨25, 11, "b"⟩]) =
      ({ plot1 := some "a", plot2 := none }, true) := by
  have h := (extract_images_keep_assigned_on_failure [⟨25, 0, "a"⟩] "bad anchor"
    [Except.ok ⟨25, 11, "b"⟩]).1
  exact h.trans (by decide)

/-- C7: loading requires the file and then a sheet literally named
"Introduction"; the two failures are distinct reported errors and both halt
processing (no mapping is produced), while on success every sheet other than
"Introduction" becomes an entry of the sector mapping, carrying its raw grid
unchanged. -/
theorem load_data_spec :
    load_data none = .error .missingFile ∧
    LoadError.missingFile ≠ LoadError.missingIndexSheet ∧
    (∀ wb : Workbook, (∀ p ∈ wb.sheets, p.1 ≠ "Introduction") →
      load_data (some wb) = .error .missingIndexSheet) ∧
    (∀ wb : Workbook, "Introduction" ∈ wb.sheets.map Prod.fst →
      ∃ introGrid, load_data (some wb) =
        .ok (wb.sheets.filter (fun p => p.1 != "Introduction"), introGrid)) := by
  refine ⟨rfl, by decide, ?_, ?_⟩
  · intro wb h
    have hf : wb.sheets.find? (fun p => p.1 == "Introduction") = none :=
      List.find?_eq_none.mpr (fun p hp => by simpa using h p hp)
    simp [load_data, hf]
  · intro wb h
    rcases hf : wb.sheets.find? (fun p => p.1 == "Introduction") with _ | q
    · exfalso
      rcases List.mem_map.mp h with ⟨p, hp, hname⟩
      have := List.find?_eq_none.mp hf p hp
      simp [hname] at this
    · exact ⟨q.2, by simp [load_data, hf]⟩

/-- Concrete instance of C7: a workbook with an "Introduction" sheet and one
sector sheet loads the sector mapping without the index sheet. -/
theorem load_data_spec_witness :
    ∃ introGrid,
      load_data (some ⟨[("Introduction", [[Cell.str "hdr"]]), ("S1", [[Cell.num 1]])]⟩) =
        .ok ([("S1", [[Cell.num 1]])], introGrid) := by
  rcases load_data_spec.2.2.2 ⟨[("Introduction", [[Cell.str "hdr"]]), ("S1", [[Cell.num 1]])]⟩
    (by decide) with ⟨g, hg⟩
  exact ⟨g, by rw [hg]; rfl⟩

/-- C9: when the matched title row is the grid's last row there is no header
row to read, and the pipeline fails with an out-of-bounds access (an uncaught
IndexError from `iloc`) rather than returning NotFound or a table. -/
theorem locate_title_on_last_row (df : List (List Cell)) (title : String) (start_row : Nat)
    (hs : find_table_start df title = some start_row)
    (hlast : start_row + 1 = df.length) :
    locate df title = .outOfBounds := by
  unfold locate
  rw [hs]
  exact if_neg (by omega)

/-- Concrete instance of C9: a one-row grid whose only row matches the title. -/
theorem locate_title_on_last_row_witness :
    locate [[Cell.str "T"]] "T" = .outOfBounds :=
  locate_title_on_last_row [[Cell.str "T"]] "T" 0 (by decide) rfl

/-- C1: scanning is top-to-bottom case-sensitive substring containment on the
stringified, whitespace-joined row text: if no row's concatenated text
contains the title, the result is none (NotFound); a returned index is in
range, its row matches, every earlier row does not, and whenever some row
matches an index no later than it is returned. -/
theorem find_table_start_first_match (df : List (List Cell)) (t : String) :
    ((∀ r ∈ df, strContains (row_to_string r) t = false) → find_table_start df t = none) ∧
    (∀ i, find_table_start df t = some i →
      i < df.length ∧ strContains (row_to_string (df.getD i [])) t = true ∧
      ∀ j, j < i → strContains (row_to_string (df.getD j [])) t = false) ∧
    (∀ i, i < df.length → strContains (row_to_string (df.getD i [])) t = true →
      ∃ j, j ≤ i ∧ find_table_start df t = some j) := by
  refine ⟨?_, ?_, ?_⟩
  · intro h
    exact List.findIdx?_eq_none_iff.mpr h
  · intro i hi
    rw [find_table_start, List.findIdx?_eq_some_iff_getElem] at hi
    obtain ⟨hlen, hp, hleast⟩ := hi
    refine ⟨hlen, ?_, ?_⟩
    · rw [List.getD_eq_getElem _ _ hlen]
      exact hp
    · intro j hj
      rw [List.getD_eq_getElem _ _ (by omega)]
      simpa using hleast j hj
  · intro i hi hp
    rcases hf : find_table_start df t with _ | j
    · exfalso
      have := List.findIdx?_eq_none_iff.mp hf df[i] (List.getElem_mem _)
      rw [List.getD_eq_getElem _ _ hi] at hp
      simp [hp] at this
    · refine ⟨j, ?_, rfl⟩
      by_contra hij
      rw [find_table_start, List.findIdx?_eq_some_iff_getElem] at hf
      obtain ⟨hlen, _, hleast⟩ := hf
      have := hleast i (by omega)
      rw [List.getD_eq_getElem _ _ hi] at hp
      simp [hp] at this

/-- Concrete instance of C1: a grid with no matching row yields none, and in
a grid whose result is index 1 the returned row indeed matches the title. -/
theorem find_table_start_first_match_witness :
    find_table_start [[Cell.str "a"], [Cell.str "b"]] "Report" = none ∧
    strContains (row_to_string ([[Cell.str "a"], [Cell.str "Report"]].getD 1 [])) "Report" = true := by
  constructor
  · exact (find_table_start_first_match [[Cell.str "a"], [Cell.str "b"]] "Report").1 (by decide)
  · exact ((find_table_start_first_match [[Cell.str "a"], [Cell.str "Report"]] "Report").2.1 1
      (by decide)).2.1

theorem find?_range'_some {p : Nat → Bool} :
    ∀ {n s i : Nat}, (List.range' s n).find? p = some i →
      p i = true ∧ s ≤ i ∧ i < s + n ∧ ∀ j, s ≤ j → j < i → p j = false := by
  intro n
  induction n with
  | zero => intro s i h; simp at h
  | succ n ih =>
    intro s i h
    rw [List.range'_succ] at h
    by_cases hps : p s = true
    · rw [List.find?_cons_of_pos _ hps] at h
      injection h with h'
      subst h'
      exact ⟨hps, le_refl _, by omega, fun j hj1 hj2 => absurd hj1 (by omega)⟩
    · rw [List.find?_cons_of_neg _ (by simpa using hps)] at h
      obtain ⟨hp, hs, hlt, hleast⟩ := ih h
      refine ⟨hp, by omega, by omega, fun j hj1 hj2 => ?_⟩
      rcases Nat.eq_or_lt_of_le hj1 with rfl | hlt'
      · simpa using hps
      · exact hleast j (by omega) hj2

theorem find_table_end_spec (df : List (List Cell)) (s : Nat) :
    find_table_end df s ≤ df.length ∧
    (∀ i, s ≤ i → i < find_table_end df s → row_all_null (df.getD i []) = false) ∧
    (find_table_end df s < df.length → row_all_null (df.getD (find_table_end df s) []) = true) := by
  unfold find_table_end
  rcases hf : (List.range' s (df.length - s)).find? (fun i => row_all_null (df.getD i [])) with _ | i
  · have hnone := List.find?_eq_none.mp hf
    simp only [Option.getD_none]
    refine ⟨le_refl _, ?_, fun h => absurd h (by omega)⟩
    intro i hsi hilen
    have hm : i ∈ List.range' s (df.length - s) := List.mem_range'_1.mpr ⟨hsi, by omega⟩
    simpa using hnone i hm
  · obtain ⟨hp, hsi, hlt, hleast⟩ := find?_range'_some hf
    simp only [Option.getD_some]
    exact ⟨by omega, fun j hj1 hj2 => hleast j hj1 hj2, fun _ => hp⟩

theorem drop_take_eq_map_range' {α : Type} (l : List α) (d : α) (s n : Nat)
    (h : s + n ≤ l.length) :
    (l.drop s).take n = (List.range' s n).map (fun i => l.getD i d) := by
  apply List.ext_getElem
  · simp only [List.length_take, List.length_drop, List.length_map, List.length_range']
    omega
  · intro i h1 h2
    have hi : i < n := by
      simp only [List.length_take, List.length_drop] at h1
      omega
    simp only [List.getElem_take, List.getElem_drop, List.getElem_map, List.getElem_range',
      Nat.one_mul]
    rw [List.getD_eq_getElem _ _ (by omega)]

/-- C5: the data extent starts at title_row + 2; it ends exclusively at the
first row at or after that index in which every cell is null (rows at or past
that row are never included, even when non-empty), or extends to the end of
the grid when no such fully-null row exists. -/
theorem table_extent_spec (df : List (List Cell)) (t : Nat) :
    find_table_end df (t + 2) ≤ df.length ∧
    (∀ i, t + 2 ≤ i → i < find_table_end df (t + 2) →
      row_all_null (df.getD i []) = false) ∧
    (find_table_end df (t + 2) < df.length →
      row_all_null (df.getD (find_table_end df (t + 2)) []) = true) ∧
    tableExtent df t =
      (List.range' (t + 2) (find_table_end df (t + 2) - (t + 2))).map
        (fun i => df.getD i []) := by
  obtain ⟨h1, h2, h3⟩ := find_table_end_spec df (t + 2)
  refine ⟨h1, h2, h3, ?_⟩
  unfold tableExtent
  by_cases hcase : t + 2 ≤ find_table_end df (t + 2)
  · exact drop_take_eq_map_range' df [] (t + 2) _ (by omega)
  · have hz : find_table_end df (t + 2) - (t + 2) = 0 := by omega
    rw [hz]
    rfl

/-- Concrete instance of C5, the specification's table-end test: data rows,
then a fully-empty row, then another non-empty row; only the rows before the
empty row are included. -/
theorem table_extent_spec_witness :
    tableExtent [[Cell.str "T"], [Cell.str "H"], [Cell.num 1], [Cell.empty], [Cell.num 2]] 0 =
      [[Cell.num 1]] := by
  have h := (table_extent_spec
    [[Cell.str "T"], [Cell.str "H"], [Cell.num 1], [Cell.empty], [Cell.num 2]] 0).2.2.2
  exact h.trans (by decide)

/-! Decimal representation facts, used to reason about the `<name>_<n>`
suffixes produced by the duplicate-column loop. -/

theorem digitChar_ne_underscore (n : Nat) : Nat.digitChar n ≠ '_' := by
  by_cases h : n < 16
  · interval_cases n <;> decide
  · have hstar : Nat.digitChar n = '*' := by
      unfold Nat.digitChar
      repeat rw [if_neg (by omega)]
    rw [hstar]
    decide

/-- Numeric value of a decimal digit character. -/
def digitVal (c : Char) : Nat := c.toNat - Char.toNat '0'

theorem digitVal_digitChar (n : Nat) (h : n < 10) : digitVal (Nat.digitChar n) = n := by
  interval_cases n <;> rfl

/-- Structural version of the digit list computed by `Nat.toDigits 10`. -/
def toDigitsRec (n : Nat) : List Char :=
  if n < 10 then [Nat.digitChar n]
  else toDigitsRec (n / 10) ++ [Nat.digitChar (n % 10)]
  decreasing_by exact Nat.div_lt_self (by omega) (by omega)

theorem toDigitsCore_eq_rec :
    ∀ (fuel n : Nat) (ds : List Char), n < fuel →
      Nat.toDigitsCore 10 fuel n ds = toDigitsRec n ++ ds := by
  intro fuel
  induction fuel with
  | zero => intro n ds h; omega
  | succ fuel ih =>
    intro n ds h
    rw [Nat.toDigitsCore]
    by_cases h10 : n / 10 = 0
    · rw [if_pos h10, toDigitsRec, if_pos (by omega), Nat.mod_eq_of_lt (by omega)]
      rfl
    · have hpos : 0 < n := by omega
      have hdiv : n / 10 < n := Nat.div_lt_self hpos (by omega)
      have hfuel : n / 10 < fuel := by omega
      rw [if_neg h10, ih _ (Nat.digitChar (n % 10) :: ds) hfuel,
        show toDigitsRec n = toDigitsRec (n / 10) ++ [Nat.digitChar (n % 10)] from by
          rw [toDigitsRec, if_neg (by omega)]]
      simp [List.append_assoc]

theorem repr_data (n : Nat) : (Nat.repr n).data = toDigitsRec n := by
  show (Nat.toDigits 10 n).asString.data = _
  rw [Nat.toDigits, toDigitsCore_eq_rec (n + 1) n [] (Nat.lt_succ_self n)]
  simp [List.asString]

/-- Decimal evaluation of a digit-character list, with accumulator. -/
def valFrom (a : Nat) (l : List Char) : Nat :=
  l.foldl (fun acc c => acc * 10 + digitVal c) a

theorem valFrom_toDigitsRec (n : Nat) :
    ∀ a, valFrom a (toDigitsRec n) = a * 10 ^ (toDigitsRec n).length + n := by
  induction n using Nat.strong_induction_on with
  | _ n ih =>
    intro a
    rw [toDigitsRec]
    by_cases h : n < 10
    · rw [if_pos h]
      show a * 10 + digitVal (Nat.digitChar n) = a * 10 ^ 1 + n
      rw [digitVal_digitChar n h, pow_one]
    · rw [if_neg h]
      have hlt : n / 10 < n := Nat.div_lt_self (by omega) (by omega)
      have ih' := ih (n / 10) hlt a
      rw [valFrom, List.foldl_append]
      rw [show ∀ (b : Nat) (c : Char),
            List.foldl (fun acc c => acc * 10 + digitVal c) b [c] = b * 10 + digitVal c
          from fun b c => rfl]
      rw [← valFrom, ih', digitVal_digitChar _ (Nat.mod_lt _ (by omega)),
        List.length_append, List.length_singleton, pow_succ]
      have hdm : n / 10 * 10 + n % 10 = n := by omega
      ring_nf
      omega

theorem repr_nat_inj (m n : Nat) (h : Nat.repr m = Nat.repr n) : m = n := by
  have hd : toDigitsRec m = toDigitsRec n := by
    have := congrArg String.data h
    rwa [repr_data, repr_data] at this
  have hm := valFrom_toDigitsRec m 0
  rw [hd, valFrom_toDigitsRec n 0] at hm
  omega

theorem toDigitsRec_no_underscore (n : Nat) : '_' ∉ toDigitsRec n := by
  induction n using Nat.strong_induction_on with
  | _ n ih =>
    rw [toDigitsRec]
    by_cases h : n < 10
    · rw [if_pos h]
      simp [(digitChar_ne_underscore n).symm]
    · rw [if_neg h]
      have hlt : n / 10 < n := Nat.div_lt_self (by omega) (by omega)
      simp [List.mem_append, ih (n / 10) hlt, (digitChar_ne_underscore (n % 10)).symm]

theorem repr_no_underscore (n : Nat) : '_' ∉ (Nat.repr n).data := by
  rw [repr_data]
  exact toDigitsRec_no_underscore n

/-! Characterization of the duplicate-column loop. -/

/-- Name assigned to position i by the dedup loop: the stringified name itself
on a first occurrence, and the name suffixed with the count of its prior
occurrences on each later occurrence. -/
def dedupName (names : List String) (i : Nat) : String :=
  if (names.take i).count (names.getD i "") = 0 then names.getD i ""
  else names.getD i "" ++ "_" ++ toString ((names.take i).count (names.getD i ""))

theorem dedupAux_count (l : List String) :
    ∀ pre : List String,
      dedupAux (fun s => pre.count s) l =
        (List.range l.length).map (fun i =>
          if (pre ++ l.take i).count (l.getD i "") = 0 then l.getD i ""
          else l.getD i "" ++ "_" ++ toString ((pre ++ l.take i).count (l.getD i ""))) := by
  induction l with
  | nil => intro pre; rfl
  | cons col rest ih =>
    intro pre
    have hupd : ∀ v : Nat, v = pre.count col + 1 →
        (fun s => if s = col then v else pre.count s) = fun s => (pre ++ [col]).count s := by
      intro v hv
      funext s
      by_cases hs : s = col
      · subst hs
        rw [if_pos rfl, List.count_append, hv]
        simp
      · rw [if_neg hs, List.count_append,
          List.count_eq_zero.mpr (by simp [hs] : s ∉ [col]), Nat.add_zero]
    have hsplit : dedupAux (fun s => pre.count s) (col :: rest) =
        if pre.count col = 0 then
          col :: dedupAux (fun s => if s = col then 1 else pre.count s) rest
        else (col ++ "_" ++ toString (pre.count col)) ::
          dedupAux (fun s => if s = col then pre.count col + 1 else pre.count s) rest := rfl
    have hr : List.range (col :: rest).length = 0 :: (List.range rest.length).map Nat.succ := by
      rw [List.length_cons, List.range_succ_eq_map]
    rw [hsplit, hr, List.map_cons, List.map_map]
    by_cases h0 : pre.count col = 0
    · rw [if_pos h0]
      congr 1
      · simp [h0]
      · rw [hupd 1 (by omega), ih (pre ++ [col])]
        apply List.map_congr_left
        intro i hi
        have hap : pre ++ [col] ++ rest.take i = pre ++ col :: rest.take i := by
          rw [List.append_assoc]
          rfl
        simp only [Function.comp_apply, List.getD_cons_succ, List.take_succ_cons, hap]
    · rw [if_neg h0]
      congr 1
      · simp [h0]
      · rw [hupd (pre.count col + 1) rfl, ih (pre ++ [col])]
        apply List.map_congr_left
        intro i hi
        have hap : pre ++ [col] ++ rest.take i = pre ++ col :: rest.take i := by
          rw [List.append_assoc]
          rfl
        simp only [Function.comp_apply, List.getD_cons_succ, List.take_succ_cons, hap]

theorem dedupColumns_eq_map (names : List String) :
    dedupColumns names = (List.range names.length).map (dedupName names) := by
  have h0 : (fun _ : String => 0) = fun s => ([] : List String).count s := by
    funext s
    simp
  rw [dedupColumns, h0, dedupAux_count]
  apply List.map_congr_left
  intro i hi
  simp [dedupName]

theorem dedupColumns_length (names : List String) :
    (dedupColumns names).length = names.length := by
  rw [dedupColumns_eq_map]
  simp

/-- C3: column dedup stringifies header values, keeps the first occurrence of
each name unchanged, and renames the n-th subsequent duplicate occurrence to
name_n with n counting prior occurrences of that exact name from 1; in
particular ["A","B","A","A"] becomes ["A","B","A_1","A_2"]. -/
theorem dedup_rename_rule :
    (∀ (names : List String) (i : Nat), i < names.length →
      (dedupColumns names).getD i "" =
        (if (names.take i).count (names.getD i "") = 0 then names.getD i ""
         else names.getD i "" ++ "_" ++ toString ((names.take i).count (names.getD i "")))) ∧
    dedupColumns ["A", "B", "A", "A"] = ["A", "B", "A_1", "A_2"] := by
  constructor
  · intro names i hi
    rw [dedupColumns_eq_map, List.getD_eq_getElem _ _ (by simpa using hi)]
    simp [dedupName]
  · decide

/-- Concrete instance of C3: the second occurrence of "A" is renamed "A_1". -/
theorem dedup_rename_rule_witness :
    (dedupColumns ["A", "A"]).getD 1 "" = "A_1" :=
  (dedup_rename_rule.1 ["A", "A"] 1 (by decide)).trans (by decide)

/-! String facts for the uniqueness analysis of the deduped names. -/

theorem underscore_append_data (s x : String) :
    (s ++ "_" ++ x).data = s.data ++ '_' :: x.data := by
  rw [String.data_append, String.data_append, List.append_assoc]
  rfl

theorem append_underscore_inj :
    ∀ (a : List Char) {b x y : List Char}, '_' ∉ a → '_' ∉ b →
      a ++ '_' :: x = b ++ '_' :: y → a = b ∧ x = y := by
  intro a
  induction a with
  | nil =>
    intro b x y _ hb h
    cases b with
    | nil => simpa using h
    | cons c b' =>
      exfalso
      rw [List.nil_append, List.cons_append] at h
      injection h with h1 h2
      apply hb
      rw [← h1]
      exact List.mem_cons_self '_' _
  | cons c a' ih =>
    intro b x y ha hb h
    cases b with
    | nil =>
      exfalso
      rw [List.cons_append, List.nil_append] at h
      injection h with h1 h2
      apply ha
      rw [h1]
      exact List.mem_cons_self '_' _
    | cons c' b' =>
      rw [List.cons_append, List.cons_append] at h
      injection h with h1 h2
      subst h1
      have ha' : '_' ∉ a' := fun hm => ha (List.mem_cons_of_mem _ hm)
      have hb' : '_' ∉ b' := fun hm => hb (List.mem_cons_of_mem _ hm)
      obtain ⟨rfl, rfl⟩ := ih ha' hb' h2
      exact ⟨rfl, rfl⟩

theorem suffixed_has_underscore (s x : String) : '_' ∈ (s ++ "_" ++ x).data := by
  rw [underscore_append_data]
  exact List.mem_append_right _ (List.mem_cons_self '_' _)

theorem suffixed_inj {s1 s2 : String} {k1 k2 : Nat}
    (h1 : '_' ∉ s1.data) (h2 : '_' ∉ s2.data)
    (h : s1 ++ "_" ++ toString k1 = s2 ++ "_" ++ toString k2) : s1 = s2 ∧ k1 = k2 := by
  have hd := congrArg String.data h
  rw [underscore_append_data, underscore_append_data] at hd
  obtain ⟨hs, hk⟩ := append_underscore_inj s1.data h1 h2 hd
  refine ⟨by ext1; exact hs, ?_⟩
  apply repr_nat_inj
  ext1
  exact hk

/-- In a prefix that extends past an occurrence of a name, the occurrence
count of that name strictly grows. -/
theorem count_take_lt (names : List String) {i j : Nat} (hij : i < j) (hi : i < names.length)
    {s : String} (hs : names.getD i "" = s) :
    (names.take i).count s < (names.take j).count s := by
  have hsplit : names.take j = names.take i ++ (names.drop i).take (j - i) := by
    have hadd := List.take_add names i (j - i)
    rw [show i + (j - i) = j from by omega] at hadd
    exact hadd
  rw [hsplit, List.count_append]
  have hlen : 0 < ((names.drop i).take (j - i)).length := by
    simp only [List.length_take, List.length_drop]
    exact lt_min_iff.mpr ⟨by omega, by omega⟩
  have h0 : ((names.drop i).take (j - i))[0] = s := by
    rw [List.getElem_take, List.getElem_drop]
    rw [List.getD_eq_getElem _ _ hi] at hs
    simpa using hs
  have hmem : s ∈ (names.drop i).take (j - i) := h0 ▸ List.getElem_mem hlen
  have := List.count_pos_iff.mpr hmem
  omega

/-- Distinct positions receive distinct deduped names, provided no original
stringified name contains an underscore. -/
theorem dedupName_ne (names : List String) (h : ∀ s ∈ names, '_' ∉ s.data)
    {i j : Nat} (hij : i < j) (hj : j < names.length) :
    dedupName names i ≠ dedupName names j := by
  intro heq
  have hi : i < names.length := by omega
  have hsi : names.getD i "" ∈ names := by
    rw [List.getD_eq_getElem _ _ hi]
    exact List.getElem_mem hi
  have hsj : names.getD j "" ∈ names := by
    rw [List.getD_eq_getElem _ _ hj]
    exact List.getElem_mem hj
  have husi : '_' ∉ (names.getD i "").data := h _ hsi
  have husj : '_' ∉ (names.getD j "").data := h _ hsj
  unfold dedupName at heq
  by_cases hc1 : (names.take i).count (names.getD i "") = 0 <;>
    by_cases hc2 : (names.take j).count (names.getD j "") = 0
  · rw [if_pos hc1, if_pos hc2] at heq
    have := count_take_lt names hij hi heq
    omega
  · rw [if_pos hc1, if_neg hc2] at heq
    apply husi
    rw [heq]
    exact suffixed_has_underscore _ _
  · rw [if_neg hc1, if_pos hc2] at heq
    apply husj
    rw [← heq]
    exact suffixed_has_underscore _ _
  · rw [if_neg hc1, if_neg hc2] at heq
    obtain ⟨hss, hkk⟩ := suffixed_inj husi husj heq
    rw [hss] at hkk
    have := count_take_lt names hij hi hss
    omega

/-- Under underscore-free original names, the deduped column names are
pairwise distinct. -/
theorem dedupColumns_nodup (names : List String) (h : ∀ s ∈ names, '_' ∉ s.data) :
    (dedupColumns names).Nodup := by
  rw [dedupColumns_eq_map]
  refine (List.nodup_range _).map_on ?_
  intro i hi j hj hfij
  by_contra hne
  rcases Nat.lt_or_ge i j with hij | hij
  · exact dedupName_ne names h hij (List.mem_range.mp hj) hfij
  · have hji : j < i := by omega
    exact dedupName_ne names h hji (List.mem_range.mp hi) hfij.symm

/-- C4 counterexample: with header row ["A","A","A_1"] the located table's
column names come out as ["A","A_1","A_1"] — the name generated for the
duplicate "A" collides with the original "A_1" — so the returned column names
are not pairwise unique. -/
theorem locate_cols_dup_cex :
    locate [[Cell.str "T", Cell.empty, Cell.empty],
        [Cell.str "A", Cell.str "A", Cell.str "A_1"],
        [Cell.num 1, Cell.num 2, Cell.num 3]] "T" =
      .table ["A", "A_1", "A_1"] [[Cell.num 1, Cell.num 2, Cell.num 3]] ∧
    ¬ (["A", "A_1", "A_1"] : List String).Nodup :=
  ⟨by decide, by decide⟩

/-- C4 (amended): the Table returned by locate has pairwise-unique column
names provided no stringified header cell contains an underscore (so that no
original name can collide with a generated name_n). -/
theorem locate_cols_nodup (df : List (List Cell)) (title : String) (start_row : Nat)
    (cols : List String) (rows : List (List Cell))
    (hs : find_table_start df title = some start_row)
    (hloc : locate df title = .table cols rows)
    (hund : ∀ c ∈ df.getD (start_row + 1) [], '_' ∉ (Cell.astypeStr c).data) :
    cols.Nodup := by
  by_cases hb : start_row + 1 < df.length
  · unfold locate at hloc
    rw [hs] at hloc
    simp only [if_pos hb] at hloc
    injection hloc with hcols hrows
    rw [← hcols]
    have hnames : (dedupColumns ((df.getD (start_row + 1) []).map Cell.astypeStr)).Nodup := by
      apply dedupColumns_nodup
      intro s hsm
      rcases List.mem_map.mp hsm with ⟨c, hc, rfl⟩
      exact hund c hc
    have hkept : (keptCols (df.getD (start_row + 1) []).length
        (dropNullRows (tableExtent df start_row))).Nodup :=
      (List.nodup_range _).filter _
    apply hkept.map_on
    intro j1 hj1 j2 hj2 hf
    have hlen : (dedupColumns ((df.getD (start_row + 1) []).map Cell.astypeStr)).length =
        (df.getD (start_row + 1) []).length := by
      rw [dedupColumns_length, List.length_map]
    have hw1 : j1 < (dedupColumns ((df.getD (start_row + 1) []).map Cell.astypeStr)).length := by
      rw [hlen]
      exact List.mem_range.mp (List.mem_of_mem_filter hj1)
    have hw2 : j2 < (dedupColumns ((df.getD (start_row + 1) []).map Cell.astypeStr)).length := by
      rw [hlen]
      exact List.mem_range.mp (List.mem_of_mem_filter hj2)
    rw [List.getD_eq_getElem _ _ hw1, List.getD_eq_getElem _ _ hw2] at hf
    exact (List.Nodup.getElem_inj_iff hnames).mp hf
  · unfold locate at hloc
    rw [hs] at hloc
    simp only [if_neg hb] at hloc
    cases hloc

/-- Concrete instance of amended C4: an underscore-free header with a
duplicate yields the pairwise-distinct names ["A","A_1","B"]. -/
theorem locate_cols_nodup_witness :
    (["A", "A_1", "B"] : List String).Nodup :=
  locate_cols_nodup [[Cell.str "T", Cell.empty, Cell.empty],
      [Cell.str "A", Cell.str "A", Cell.str "B"],
      [Cell.num 1, Cell.num 2, Cell.num 3]] "T" 0 ["A", "A_1", "B"]
    [[Cell.num 1, Cell.num 2, Cell.num 3]] (by decide) (by decide) (by decide)

/-! Lemmas about the trim step. -/

theorem row_all_null_getD (r : List Cell) (j : Nat) (h : row_all_null r = true) :
    (r.getD j Cell.empty).isNull = true := by
  by_cases hj : j < r.length
  · rw [List.getD_eq_getElem _ _ hj]
    exact List.all_eq_true.mp h _ (List.getElem_mem hj)
  · rw [List.getD_eq_getElem?_getD, List.getElem?_eq_none (by omega)]
    rfl

theorem all_null_col_filter (m : List (List Cell)) (j : Nat) :
    ((dropNullRows m).all (fun r => (r.getD j Cell.empty).isNull)) =
      (m.all (fun r => (r.getD j Cell.empty).isNull)) := by
  rw [Bool.eq_iff_iff, List.all_eq_true, List.all_eq_true]
  constructor
  · intro hall r hr
    by_cases hrn : row_all_null r = true
    · exact row_all_null_getD r j hrn
    · exact hall r (List.mem_filter.mpr ⟨hr, by simp [hrn]⟩)
  · intro hall r hr
    exact hall r (List.mem_of_mem_filter hr)

theorem keptCols_dropNullRows (w : Nat) (m : List (List Cell)) :
    keptCols w (dropNullRows m) = keptCols w m := by
  unfold keptCols
  apply List.filter_congr
  intro j hj
  rw [all_null_col_filter]

/-- C6: the trim step drops exactly the rows that are entirely empty and the
columns that are entirely empty across all rows of the original table; no
returned row and no returned column is entirely empty, and the relative order
of the remaining rows and of the remaining columns is preserved. -/
theorem trim_drops_exactly (w : Nat) (m : List (List Cell))
    (hrect : ∀ r ∈ m, r.length = w) :
    trimTable w m =
      (m.filter (fun r => !(row_all_null r))).map
        (fun r => (keptCols w m).map (fun j => r.getD j Cell.empty)) ∧
    List.Sublist (m.filter (fun r => !(row_all_null r))) m ∧
    List.Pairwise (· < ·) (keptCols w m) ∧
    (∀ r ∈ trimTable w m, r.any (fun c => !(Cell.isNull c)) = true) ∧
    (∀ p, p < (keptCols w m).length →
      (trimTable w m).any (fun row => !(Cell.isNull (row.getD p Cell.empty))) = true) := by
  refine ⟨?_, List.filter_sublist m, ?_, ?_, ?_⟩
  · unfold trimTable
    simp only [keptCols_dropNullRows]
    rfl
  · exact (List.pairwise_lt_range w).sublist (List.filter_sublist _)
  · intro r' hr'
    unfold trimTable at hr'
    rcases List.mem_map.mp hr' with ⟨r, hrmem, rfl⟩
    have hrm := List.mem_filter.mp hrmem
    have hnn : ¬ row_all_null r = true := by simpa using hrm.2
    rw [row_all_null, List.all_eq_true] at hnn
    push_neg at hnn
    obtain ⟨c, hc, hcnull⟩ := hnn
    rcases List.mem_iff_getElem.mp hc with ⟨p, hp, rfl⟩
    have hpw : p < w := by
      rw [← hrect r hrm.1]
      exact hp
    have hpkept : p ∈ keptCols w (dropNullRows m) := by
      unfold keptCols
      rw [List.mem_filter]
      refine ⟨List.mem_range.mpr hpw, ?_⟩
      rw [Bool.not_eq_true']
      apply List.all_eq_false.mpr
      refine ⟨r, hrmem, ?_⟩
      rw [List.getD_eq_getElem _ _ hp]
      simpa using hcnull
    apply List.any_eq_true.mpr
    refine ⟨r.getD p Cell.empty, List.mem_map.mpr ⟨p, hpkept, rfl⟩, ?_⟩
    rw [List.getD_eq_getElem _ _ hp]
    simpa using hcnull
  · intro p hp
    have hpk : p < (keptCols w (dropNullRows m)).length := by
      rw [keptCols_dropNullRows]
      exact hp
    set j := (keptCols w (dropNullRows m))[p] with hjdef
    obtain ⟨r, hrmem, hrj⟩ : ∃ r ∈ dropNullRows m,
        (r.getD j Cell.empty).isNull = false := by
      have hjmem : j ∈ keptCols w (dropNullRows m) := List.getElem_mem hpk
      unfold keptCols at hjmem
      have hpred := (List.mem_filter.mp hjmem).2
      rw [Bool.not_eq_true'] at hpred
      simpa using List.all_eq_false.mp hpred
    unfold trimTable
    apply List.any_eq_true.mpr
    refine ⟨(keptCols w (dropNullRows m)).map (fun j => r.getD j Cell.empty),
      List.mem_map.mpr ⟨r, hrmem, rfl⟩, ?_⟩
    have hplen : p < ((keptCols w (dropNullRows m)).map (fun j => r.getD j Cell.empty)).length := by
      simpa using hpk
    rw [List.getD_eq_getElem _ _ hplen, List.getElem_map]
    simpa using hrj

/-- Concrete instance of C6: a table with one all-empty row and one all-empty
column trims to exactly the non-empty cells. -/
theorem trim_drops_exactly_witness :
    trimTable 2 [[Cell.num 1, Cell.empty], [Cell.empty, Cell.empty]] =
      [[Cell.num 1]] := by
  have h := (trim_drops_exactly 2 [[Cell.num 1, Cell.empty], [Cell.empty, Cell.empty]]
    (by decide)).1
  exact h.trans (by decide)
